import Mathlib

/-!
Shallow embedding of the graph-store and curve-engine core of the
fsm-builder editor (src/utils/fsm.ts and src/utils/fsmHelpers.ts).

Numbers (coordinates, radii, curvature offsets, rotation angles) are
JavaScript floats in the source; they are modelled as real numbers.
Node and edge ids are strings.  The id-keyed JavaScript record
fsmState.nodes is modelled as an association list in insertion order
(the order Object.entries iterates string keys).
-/

namespace FsmBuilder

/-- Vec2 from fsm.ts (interface Vec2, line 2006): a 2D point/vector. -/
@[ext]
structure Vec2 where
  x : ℝ
  y : ℝ

/-- FSMTransition from fsm.ts lines 32-38.  The field offset is a plain
(non-optional) number in the source; rotation is optional. -/
structure FSMTransition where
  «to» : String
  label : String
  offset : ℝ
  rotation : Option ℝ

/-- FSMNode from fsm.ts lines 40-47. -/
structure FSMNode where
  label : String
  x : ℝ
  y : ℝ
  radius : ℝ
  transitions : List FSMTransition
  innerLabel : String

/-- FSMState from fsm.ts lines 49-52: optional start id plus the
id-keyed node record, modelled as an association list. -/
structure FSMState where
  start : Option String
  nodes : List (String × FSMNode)

/-- Keys of the node record (the live node ids). -/
def FSMState.keys (s : FSMState) : List String := s.nodes.map Prod.fst

/-- The no-dangling-reference invariant of the data model (spec section 3):
every transition destination is a key of the node map. -/
def NoDangling (s : FSMState) : Prop :=
  ∀ p ∈ s.nodes, ∀ t ∈ p.2.transitions, t.«to» ∈ s.keys

/-- Net effect of removeNode (fsm.ts lines 1296-1314) on the FSMState.
removeNode dispatches the per-node remove event; every edge whose source
or destination is the removed id has registered removeEdge
(fsm.ts lines 560-570) on that event, and removeEdge (lines 836-864)
splices the corresponding transition out of its source node transition
list.  The start-marker listener on the update event (lines 1350-1357)
deletes fsmState.start when it equals the removed id.  Finally the node
entry itself is deleted (line 1308).  Net: the node entry is erased,
every remaining transition whose destination is the removed id is
removed, and the start designation is cleared when it pointed there. -/
def removeNode (id : String) (s : FSMState) : FSMState :=
  { start := if s.start = some id then none else s.start
    nodes := (s.nodes.filter (fun p => p.1 ≠ id)).map
      (fun p => (p.1, { p.2 with transitions := p.2.transitions.filter (fun t => t.«to» ≠ id) })) }

/-- createNodeId (fsm.ts lines 146-153): starting from the current value
of the mutable counter nodeId, emit the candidate id "node-<counter>",
incrementing the counter, and scan forward while the candidate collides
with an existing key.  The unbounded while-loop is embedded with an
explicit fuel; on success the new id and the counter value after the
final post-increment are returned. -/
def createNodeIdAux (keys : List String) : Nat → Nat → Option (String × Nat)
  | 0, _ => none
  | fuel + 1, c =>
    let id := "node-" ++ toString c
    if id ∈ keys then createNodeIdAux keys fuel (c + 1) else some (id, c + 1)

/-- Label anchor side used by the curve engine (see getAutoAnchor). -/
inductive Anchor where
  | left
  | right
deriving DecidableEq

/-- Edge registry edgeIdToTransition (fsm.ts line 158): edge id to
(source id, owned transition).  In the source the stored transition is a
shared reference into the source node transition list; sharing is
modelled by updating both places on writes. -/
abbrev EdgeRegistry := List (String × String × FSMTransition)

noncomputable instance : DecidableEq FSMTransition := fun _ _ => Classical.propDecidable _

/-- getAutoAnchor (fsm.ts lines 1586-1592).  The source destructures
edgeIdToTransition[edgeId]; the lookup is modelled with find? and the
result is none when the edge id is not registered (where the source
would throw).  The defensive "offset ?? 0" in the source is the
identity here because offset is a non-optional number. -/
noncomputable def getAutoAnchor (reg : EdgeRegistry) (edgeId : String) : Option Anchor :=
  match reg.find? (fun e => e.1 = edgeId) with
  | none => none
  | some (_, src, tr) =>
    if src = tr.«to» then some .left
    else if 0 ≤ tr.offset then some .right else some .left

/-- Editor state relevant to removeEdge: the graph state plus the edge
registry (abort controllers and DOM updates are not modelled). -/
structure EditorState where
  fsm : FSMState
  edges : EdgeRegistry

/-- Remove the first occurrence of a transition (JavaScript
Array.prototype.splice at the index found by indexOf, which compares by
object identity; identity is modelled by value equality, adequate
because each edge owns a distinct transition object). -/
noncomputable def eraseFirstTransition (t : FSMTransition) : List FSMTransition → List FSMTransition
  | [] => []
  | a :: rest => if a = t then rest else a :: eraseFirstTransition t rest

/-- removeEdge (fsm.ts lines 836-864): if the edge id is unknown the
call is a no-op (debug warning only); otherwise the registry entry is
deleted and, when the source node still exists and its list contains
the transition, the transition is spliced out.  DOM removal, the abort
of the edge scope, and the onChange notification are not part of the
returned state. -/
noncomputable def removeEdge (id : String) (st : EditorState) : EditorState :=
  match st.edges.find? (fun e => e.1 = id) with
  | none => st
  | some (_, src, tr) =>
    let edges' := st.edges.eraseP (fun e => decide (e.1 = id))
    let nodes' :=
      match st.fsm.nodes.find? (fun p => p.1 = src) with
      | none => st.fsm.nodes
      | some (_, srcNode) =>
        if tr ∈ srcNode.transitions then
          st.fsm.nodes.map (fun p =>
            if p.1 = src then (p.1, { p.2 with transitions := eraseFirstTransition tr p.2.transitions }) else p)
        else st.fsm.nodes
    { fsm := { st.fsm with nodes := nodes' }, edges := edges' }

/-- Math.hypot on two arguments: the square root of the sum of squares. -/
noncomputable def hypot (x y : ℝ) : ℝ := Real.sqrt (x ^ 2 + y ^ 2)

/-- Math.atan2(y, x), modelled as the argument of the complex number
x + y*I, which has the same value and (-pi, pi] convention. -/
noncomputable def atan2 (y x : ℝ) : ℝ := Complex.arg ⟨x, y⟩

/-- unitVec (fsm.ts lines 2010-2013).  The source guards a zero-length
input with "Math.hypot(vx, vy) || 1". -/
noncomputable def unitVec (vx vy : ℝ) : Vec2 :=
  let m := if hypot vx vy = 0 then 1 else hypot vx vy
  ⟨vx / m, vy / m⟩

/-- perpLeft (fsm.ts lines 2015-2017). -/
def perpLeft (v : Vec2) : Vec2 := ⟨-v.y, v.x⟩

/-- rotate (fsm.ts lines 2019-2023). -/
noncomputable def rotate (v : Vec2) (angleRad : ℝ) : Vec2 :=
  let c := Real.cos angleRad
  let s := Real.sin angleRad
  ⟨c * v.x - s * v.y, s * v.x + c * v.y⟩

/-- cubicPoint (fsm.ts lines 2026-2034): evaluate the cubic Bezier. -/
noncomputable def cubicPoint (p0 p1 p2 p3 : Vec2) (t : ℝ) : Vec2 :=
  let u := 1 - t
  let uu := u * u
  let tt := t * t
  ⟨uu * u * p0.x + 3 * uu * t * p1.x + 3 * u * tt * p2.x + tt * t * p3.x,
   uu * u * p0.y + 3 * uu * t * p1.y + 3 * u * tt * p2.y + tt * t * p3.y⟩

/-- cubicTangent (fsm.ts lines 2036-2042). -/
noncomputable def cubicTangent (p0 p1 p2 p3 : Vec2) (t : ℝ) : Vec2 :=
  let u := 1 - t
  ⟨3 * u * u * (p1.x - p0.x) + 6 * u * t * (p2.x - p1.x) + 3 * t * t * (p3.x - p2.x),
   3 * u * u * (p1.y - p0.y) + 6 * u * t * (p2.y - p1.y) + 3 * t * t * (p3.y - p2.y)⟩

/-- controlFromOffsetCubic (fsm.ts lines 2046-2060): the two control
points of a non-self edge, displaced from the chord midpoint along the
chord direction by 0.4 * |offset| and along the left normal by
0.8 * offset. -/
noncomputable def controlFromOffsetCubic (p0 p3 : Vec2) (offset : ℝ) : Vec2 × Vec2 :=
  let dir := unitVec (p3.x - p0.x) (p3.y - p0.y)
  let n := perpLeft dir
  let m : Vec2 := ⟨(p0.x + p3.x) / 2, (p0.y + p3.y) / 2⟩
  let sepScale : ℝ := 0.4
  let dispScale : ℝ := 0.8
  let sep := |offset| * sepScale
  let disp := offset * dispScale
  (⟨m.x - dir.x * sep + n.x * disp, m.y - dir.y * sep + n.y * disp⟩,
   ⟨m.x + dir.x * sep + n.x * disp, m.y + dir.y * sep + n.y * disp⟩)

/-- Result record of selfLoopArcParams (fsm.ts line 2088). -/
structure ArcParams where
  center : Vec2
  radius : ℝ
  startAngle : ℝ
  endAngle : ℝ
  startPt : Vec2
  endPt : Vec2
  largeArcFlag : Nat
  sweepFlag : Nat

/-- selfLoopArcParams (fsm.ts lines 2071-2089): the self-loop arc lives
on an auxiliary circle of radius 0.8 * r centred at distance r from the
node centre along the rotation angle; the endpoints are placed via the
law of cosines, and the emitted flags are always largeArc = 1 and
sweep = 1. -/
noncomputable def selfLoopArcParams (center : Vec2) (r theta : ℝ) : ArcParams :=
  let Rs := 0.8 * r
  let d := r
  let Cs : Vec2 := ⟨center.x + d * Real.cos theta, center.y + d * Real.sin theta⟩
  let dist := d
  let cosBeta := (dist * dist + Rs * Rs - r * r) / (2 * dist * Rs)
  let cosBeta := max (-1) (min 1 cosBeta)
  let beta := Real.arccos cosBeta
  let baseSmall := atan2 (center.y - Cs.y) (center.x - Cs.x)
  let a1 := baseSmall + beta
  let a2 := baseSmall - beta
  let startPt : Vec2 := ⟨Cs.x + Rs * Real.cos a1, Cs.y + Rs * Real.sin a1⟩
  let endPt : Vec2 := ⟨Cs.x + Rs * Real.cos a2, Cs.y + Rs * Real.sin a2⟩
  ⟨Cs, Rs, a1, a2, startPt, endPt, 1, 1⟩

/-- Newton phase of findCubicCircleIntersectionT (fsm.ts lines
2126-2141): at most ten iterations from the seed, breaking when the
derivative is tiny and clamping each step to [0, 1]; the
Number.isFinite guards of the source are identically true in the
real-valued model. -/
noncomputable def newtonLoop (f df : ℝ → ℝ) : Nat → ℝ → ℝ
  | 0, t => t
  | n + 1, t =>
    let ft := f t
    let dft := df t
    if |dft| < 1e-6 then t
    else
      let t' := max 0 (min 1 (t - ft / dft))
      if |ft| < 1e-4 then t' else newtonLoop f df n t'

/-- Bisection fallback of findCubicCircleIntersectionT (fsm.ts lines
2144-2156): 24 halvings of [lo, hi], keeping the half where f changes
sign, returning hi. -/
noncomputable def bisectLoop (f : ℝ → ℝ) : Nat → ℝ → ℝ → ℝ
  | 0, _, hi => hi
  | n + 1, lo, hi =>
    let mid := (lo + hi) / 2
    if f mid > 0 then bisectLoop f n mid hi else bisectLoop f n lo mid

/-- findCubicCircleIntersectionT (fsm.ts lines 2105-2159): solve
|B(t) - center|^2 = radius^2 by Newton iteration seeded at 0.95, fall
back to bisection over [0, 1] when the result is out of range or not
within tolerance, and clamp the answer to [0, 1]. -/
noncomputable def findCubicCircleIntersectionT (p0 p1 p2 p3 center : Vec2) (radius : ℝ) : ℝ :=
  let r2 := radius * radius
  let f := fun t =>
    let q := cubicPoint p0 p1 p2 p3 t
    (q.x - center.x) * (q.x - center.x) + (q.y - center.y) * (q.y - center.y) - r2
  let df := fun t =>
    let q := cubicPoint p0 p1 p2 p3 t
    let dq := cubicTangent p0 p1 p2 p3 t
    2 * ((q.x - center.x) * dq.x + (q.y - center.y) * dq.y)
  let t := newtonLoop f df 10 0.95
  let t := if ¬(0 ≤ t ∧ t ≤ 1) ∨ f t > 1e-3 then bisectLoop f 24 0 1 else t
  max 0 (min 1 t)

/-- getNode (fsm.ts line 154): defensive lookup returning undefined for
an unknown id. -/
def getNode (s : FSMState) (id : String) : Option FSMNode :=
  (s.nodes.find? (fun p => p.1 = id)).map Prod.snd

/-- Drag base captured at the start of an edge curvature drag
(fsm.ts line 664): chord midpoint, left normal, initial projection of
the pointer on the normal, and the offset at drag start. -/
structure EdgeDragBase where
  m : Vec2
  n : Vec2
  startProj : ℝ
  startOffset : ℝ

/-- Mutable gesture state of initializeEdgeInteraction (fsm.ts lines
656-664): the dragging and moved flags, the pointer-down client
position, and the captured drag base (none for self-loops). -/
structure EdgeDragCtx where
  dragging : Bool
  moved : Bool
  down : Vec2
  dragBase : Option EdgeDragBase

/-- Write through the shared transition reference: the source mutates
the object stored in edgeIdToTransition[edgeId], which is the same
object held in the source node transition list, so both the registry
entry and the first matching list entry are updated. -/
noncomputable def replaceFirstTransition (t t' : FSMTransition) : List FSMTransition → List FSMTransition
  | [] => []
  | a :: rest => if a = t then t' :: rest else a :: replaceFirstTransition t t' rest

/-- State effect of assigning to a field of the shared transition
object of edge edgeId (owned by node src, previous value tr). -/
noncomputable def writeSharedTransition (st : EditorState) (edgeId src : String)
    (tr tr' : FSMTransition) : EditorState :=
  { fsm := { st.fsm with
      nodes := st.fsm.nodes.map (fun p =>
        if p.1 = src then (p.1, { p.2 with transitions := replaceFirstTransition tr tr' p.2.transitions }) else p) }
    edges := st.edges.map (fun e => if e.1 = edgeId then (e.1, e.2.1, tr') else e) }

/-- Dereferences performed by computeEdgeGeom (fsm.ts lines 1532-1546),
which updateEdgeElement invokes at the end of every edge-drag pointer
move: the registry entry for the edge id is destructured (a TypeError
when the edge has been removed) and the x/y fields of both endpoint
nodes are read through non-null-asserted getNode calls (a TypeError
when either node has been removed).  The geometric value itself is
computed by the total functions computeSelfEdgeGeom /
computeNonSelfEdgeGeom and is not needed here. -/
noncomputable def computeEdgeGeomLookups (st : EditorState) (edgeId : String) :
    Except String (String × FSMTransition × FSMNode × FSMNode) :=
  match st.edges.find? (fun e => e.1 = edgeId) with
  | none => .error "TypeError: edgeIdToTransition[id] is undefined"
  | some (_, src, tr) =>
    match getNode st.fsm src, getNode st.fsm tr.«to» with
    | some a, some b => .ok (src, tr, a, b)
    | _, _ => .error "TypeError: cannot read properties of undefined node"

/-- onPointerMove of initializeEdgeInteraction (fsm.ts lines 666-709),
followed by the updateEdgeElement dereferences it performs (line 707).
The handler stays attached to window for the whole drag (the pointerup
listener alone removes it), so it can fire after removeEdge or
removeNode has run; client is the raw pointer position used for the
moved threshold, pt the converted SVG position (clientToSvg depends on
the DOM viewport and is modelled as already applied).  A thrown
TypeError is returned as an error value. -/
noncomputable def edgeDragPointerMove (st : EditorState) (edgeId source transitionTo : String)
    (ctx : EdgeDragCtx) (client pt : Vec2) : Except String (EditorState × EdgeDragCtx) :=
  if !ctx.dragging then .ok (st, ctx)
  else
    let moved' :=
      if ctx.moved then true
      else if (client.x - ctx.down.x) * (client.x - ctx.down.x)
              + (client.y - ctx.down.y) * (client.y - ctx.down.y) > 144 then true
      else ctx.moved
    let ctx' := { ctx with moved := moved' }
    let startNode? := getNode st.fsm source
    if source = transitionTo then
      match startNode? with
      | none => .error "TypeError: cannot read properties of undefined startNode"
      | some startNode =>
        let deg := atan2 (pt.y - startNode.y) (pt.x - startNode.x) * 180 / Real.pi
        match st.edges.find? (fun e => e.1 = edgeId) with
        | none => .error "TypeError: edgeIdToTransition[id] is undefined"
        | some (_, src, tr) =>
          let st' := writeSharedTransition st edgeId src tr { tr with rotation := some deg }
          (computeEdgeGeomLookups st' edgeId).map (fun _ => (st', ctx'))
    else
      match ctx.dragBase with
      | none =>
        (computeEdgeGeomLookups st edgeId).map (fun _ => (st, ctx'))
      | some base =>
        let v : Vec2 := ⟨pt.x - base.m.x, pt.y - base.m.y⟩
        let proj := v.x * base.n.x + v.y * base.n.y
        match st.edges.find? (fun e => e.1 = edgeId) with
        | none => .error "TypeError: edgeIdToTransition[id] is undefined"
        | some (_, src, tr) =>
          let st' := writeSharedTransition st edgeId src tr
            { tr with offset := base.startOffset + (proj - base.startProj) }
          (computeEdgeGeomLookups st' edgeId).map (fun _ => (st', ctx'))

/-- Loop body accumulator of findNodeAtPt (fsm.ts lines 1517-1530):
track the best (id, distance) pair over the node entries, admitting a
node when the pointer is within node.radius + defaultRadius of its
centre and replacing the best on strictly smaller distance. -/
noncomputable def findBest (defaultRadius : ℝ) (pt : Vec2) :
    List (String × FSMNode) → Option (String × ℝ) → Option (String × ℝ)
  | [], best => best
  | (id, n) :: rest, best =>
    let d := hypot (pt.x - n.x) (pt.y - n.y)
    let best' :=
      if d ≤ n.radius + defaultRadius then
        match best with
        | none => some (id, d)
        | some b => if d < b.2 then some (id, d) else best
      else best
    findBest defaultRadius pt rest best'

/-- findNodeAtPt (fsm.ts lines 1517-1530): nearest node whose centre is
within radius + defaultRadius of the point, if any. -/
noncomputable def findNodeAtPt (defaultRadius : ℝ) (s : FSMState) (pt : Vec2) : Option String :=
  (findBest defaultRadius pt s.nodes none).map Prod.fst

/-- State of one continuous node drag together with the deferral
machinery it interacts with: the dragged node position in fsmState, the
moved flag (fsm.ts lines 1172-1179), the requestAnimationFrame throttle
flag changeScheduled (lines 1059 and 1212-1218) with its queued frame
callback, the single pending debounce timer of tryOnChange (lines
130-144), and the count of delivered onChange notifications. -/
structure NodeDragState where
  dragging : Bool
  pos : Vec2
  moved : Bool
  changeScheduled : Bool
  rafPending : Bool
  timerPending : Bool
  fired : Nat

/-- tryOnChange (fsm.ts lines 130-144): clearTimeout of the pending
debounce timer followed by setTimeout of a fresh one, i.e. the single
pending slot is (re)occupied and no notification is delivered yet. -/
def tryOnChangeStep (s : NodeDragState) : NodeDragState := { s with timerPending := true }

/-- onPointerMove of initializeNodeInteraction (fsm.ts lines
1165-1219): update the moved flag against the 1.8 px threshold, write
the node position from the pointer minus the grab offset, and schedule
an onChange via requestAnimationFrame unless one is already
scheduled. -/
noncomputable def nodeDragPointerMove (off dragStart : Vec2) (s : NodeDragState) (pt : Vec2) :
    NodeDragState :=
  if !s.dragging then s
  else
    let nx := pt.x - off.x
    let ny := pt.y - off.y
    let s :=
      if s.moved then s
      else if hypot (nx - dragStart.x) (ny - dragStart.y) > 1.8 then { s with moved := true }
      else s
    let s := { s with pos := ⟨nx, ny⟩ }
    if s.changeScheduled then s
    else { s with changeScheduled := true, rafPending := true }

/-- onPointerUp of initializeNodeInteraction (fsm.ts lines 1220-1228):
end the drag and call tryOnChange. -/
def nodeDragPointerUp (s : NodeDragState) : NodeDragState :=
  if !s.dragging then s
  else tryOnChangeStep { s with dragging := false }

/-- The queued animation-frame callback (fsm.ts lines 1214-1217): clear
the throttle flag and call tryOnChange. -/
def runAnimationFrame (s : NodeDragState) : NodeDragState :=
  if s.rafPending then tryOnChangeStep { s with rafPending := false, changeScheduled := false }
  else s

/-- Expiry of the pending debounce timer (fsm.ts lines 134-143): the
onChange callback is delivered and the slot empties. -/
def runTimer (s : NodeDragState) : NodeDragState :=
  if s.timerPending then { s with timerPending := false, fired := s.fired + 1 }
  else s

/-- Settling after a rapid burst: the queued animation frame runs, then
the (at most one) pending debounce timer expires.  During the burst
itself no timer fires, which is the rapid-edit regime the debounce
comment in the source describes. -/
def settle (s : NodeDragState) : NodeDragState := runTimer (runAnimationFrame s)

/-- BackwardsCompatibleNode (fsmHelpers.ts lines 38-43): text is the
inner label, label the outer label. -/
structure BackwardsCompatibleNode where
  text : String
  label : String
  x : ℝ
  y : ℝ

/-- BackwardsCompatibleLink and BackwardsCompatibleStartLink
(fsmHelpers.ts lines 45-58), tagged by the type field. -/
inductive BackwardsCompatibleLink where
  | link (nodeA nodeB : Nat) (text : String) (deltaX deltaY : ℝ)
  | startLink (node : Nat)

/-- BackwardsCompatibleState (fsmHelpers.ts lines 60-64). -/
structure BackwardsCompatibleState where
  nodes : List BackwardsCompatibleNode
  links : List BackwardsCompatibleLink
  nodeRadius : Option ℝ

/-- fsmStateToBackwardsCompatible (fsmHelpers.ts lines 66-103).  The
idToIndex record maps each node id to its position in the nodes array;
for destinations present in the map (which the no-dangling invariant
guarantees) List.indexOf over the key list is exactly that position.
The JS truthiness test "if (state.start)" also rejects an empty-string
start id. -/
def fsmStateToBackwardsCompatible (state : FSMState) : BackwardsCompatibleState :=
  let idToIndex := fun id => (state.nodes.map Prod.fst).indexOf id
  let nodes := state.nodes.map (fun p =>
    BackwardsCompatibleNode.mk p.2.innerLabel p.2.label p.2.x p.2.y)
  let links := state.nodes.flatMap (fun p =>
    p.2.transitions.map (fun t =>
      BackwardsCompatibleLink.link (idToIndex p.1) (idToIndex t.«to») t.label t.offset t.offset))
  let links := links ++ (match state.start with
    | some st => if st = "" then [] else [BackwardsCompatibleLink.startLink (idToIndex st)]
    | none => [])
  ⟨nodes, links, some ((state.nodes.head?.map (fun p => p.2.radius)).getD 10)⟩

/-- fsmStateFromBackwardsCompatible (fsmHelpers.ts lines 105-142):
rebuild the node map under synthetic ids node-i, then replay the links,
recovering each curvature offset as hypot(deltaX, deltaY). -/
noncomputable def fsmStateFromBackwardsCompatible (state : BackwardsCompatibleState) : FSMState :=
  let nodes0 : List (String × FSMNode) := state.nodes.enum.map (fun ni =>
    ("node-" ++ toString ni.1,
     ⟨ni.2.label, ni.2.x, ni.2.y, state.nodeRadius.getD 10, [], ni.2.text⟩))
  let step := fun (acc : List (String × FSMNode) × Option String) (link : BackwardsCompatibleLink) =>
    match link with
    | .link a b text dx dy =>
      let fromId := "node-" ++ toString a
      let toId := "node-" ++ toString b
      if fromId ∈ acc.1.map Prod.fst ∧ toId ∈ acc.1.map Prod.fst then
        (acc.1.map (fun p =>
          if p.1 = fromId
          then (p.1, { p.2 with transitions := p.2.transitions ++ [⟨toId, text, hypot dx dy, none⟩] })
          else p), acc.2)
      else acc
    | .startLink nd =>
      let toId := "node-" ++ toString nd
      if toId ∈ acc.1.map Prod.fst then (acc.1, some toId) else acc
  let res := state.links.foldl step (nodes0, none)
  ⟨res.2, res.1⟩

/-- Concrete two-node state with a cross edge, a self-loop and a start
designation, used to instantiate the C1 theorem. -/
def c1State : FSMState :=
  ⟨some "node-0",
   [("node-0", ⟨"A", 0, 0, 35, [⟨"node-1", "x", 20, none⟩, ⟨"node-0", "y", 0, some 90⟩], "q0"⟩),
    ("node-1", ⟨"B", 100, 0, 35, [⟨"node-0", "z", -5, none⟩], "q1"⟩)]⟩

/-- Concrete edge registry with one non-self edge of positive offset
and one self-loop, used to instantiate the C8 theorem. -/
def c8Reg : EdgeRegistry :=
  [("edge-0", "a", ⟨"b", "x", 5, none⟩), ("edge-1", "b", ⟨"b", "y", -3, some 0⟩)]

/-- Concrete editor state whose edge registry is empty (the edge that a
drag was started on has been removed), used for the C2 evidence. -/
def c2State : EditorState :=
  ⟨⟨none, [("a", ⟨"A", 0, 0, 35, [], "q0"⟩), ("b", ⟨"B", 100, 0, 35, [], "q1"⟩)]⟩, []⟩

/-- Concrete one-node state for the C10 witness. -/
def c10State : FSMState := ⟨none, [("a", ⟨"A", 1, 2, 35, [], "q0"⟩)]⟩

/-- Concrete state with one non-self negative-offset transition for the
C9 round-trip theorem. -/
def c9State : FSMState :=
  ⟨none, [("a", ⟨"A", 0, 0, 35, [⟨"b", "lbl", -1, none⟩], "qa"⟩),
          ("b", ⟨"B", 100, 0, 35, [], "qb"⟩)]⟩

/-! Theorems -/

/-- Claim C1: for every graph state and node id present in it,
removeNode leaves a state in which the removed id owns no node entry,
no surviving transition has the removed id as destination, and the
start designation is cleared when it pointed to the removed node; a
state satisfying the no-dangling-reference invariant still satisfies it
afterwards. -/
theorem removeNode_cascades_no_dangling (s : FSMState) (id : String) (hid : id ∈ s.keys) :
    (∀ p ∈ (removeNode id s).nodes, p.1 ≠ id)
    ∧ (∀ p ∈ (removeNode id s).nodes, ∀ t ∈ p.2.transitions, t.«to» ≠ id)
    ∧ (s.start = some id → (removeNode id s).start = none)
    ∧ (NoDangling s → NoDangling (removeNode id s)) := by
  refine ⟨?_, ?_, ?_, ?_⟩
  · intro p hp
    simp only [removeNode, List.mem_map, List.mem_filter, decide_eq_true_eq] at hp
    obtain ⟨q, ⟨_, hqid⟩, rfl⟩ := hp
    exact hqid
  · intro p hp t ht
    simp only [removeNode, List.mem_map, List.mem_filter, decide_eq_true_eq] at hp
    obtain ⟨q, ⟨_, _⟩, rfl⟩ := hp
    simp only [List.mem_filter, decide_eq_true_eq] at ht
    exact ht.2
  · intro h
    simp [removeNode, h]
  · intro hnd p hp t ht
    simp only [removeNode, List.mem_map, List.mem_filter, decide_eq_true_eq] at hp
    obtain ⟨q, ⟨hq, hqid⟩, rfl⟩ := hp
    simp only [List.mem_filter, decide_eq_true_eq] at ht
    have hto : t.«to» ∈ s.keys := hnd q hq t ht.1
    simp only [FSMState.keys, List.mem_map] at hto
    obtain ⟨q', hq', hq'to⟩ := hto
    simp only [removeNode, FSMState.keys, List.map_map, List.mem_map, Function.comp]
    refine ⟨q', List.mem_filter.mpr ⟨hq', ?_⟩, hq'to⟩
    simp only [decide_eq_true_eq]
    rw [hq'to]
    exact ht.2

/-- Witness for C1 at the concrete state c1State. -/
theorem removeNode_cascades_no_dangling_witness :
    ("node-0" ∈ c1State.keys)
    ∧ (removeNode "node-0" c1State).start = none
    ∧ NoDangling (removeNode "node-0" c1State) := by
  have hin : "node-0" ∈ c1State.keys := by simp [c1State, FSMState.keys]
  have hnd : NoDangling c1State := by
    intro p hp t ht
    simp only [c1State, List.mem_cons, List.not_mem_nil, or_false] at hp
    rcases hp with rfl | rfl
    · simp only [List.mem_cons, List.not_mem_nil, or_false] at ht
      rcases ht with rfl | rfl <;> simp [c1State, FSMState.keys]
    · simp only [List.mem_cons, List.not_mem_nil, or_false] at ht
      rcases ht with rfl
      simp [c1State, FSMState.keys]
  have h := removeNode_cascades_no_dangling c1State "node-0" hin
  exact ⟨hin, h.2.2.1 rfl, h.2.2.2 hnd⟩

/-- Claim C6: any id returned by the createNodeId scan is distinct from
every key present at allocation time, and the counter strictly
increases, so allocation never collides with a live id even after
interleaved create/delete sequences or externally supplied ids. -/
theorem createNodeId_fresh (keys : List String) (fuel c : Nat) (id : String) (c' : Nat)
    (h : createNodeIdAux keys fuel c = some (id, c')) :
    id ∉ keys ∧ c < c' := by
  induction fuel generalizing c with
  | zero => simp [createNodeIdAux] at h
  | succ n ih =>
    simp only [createNodeIdAux] at h
    by_cases hmem : ("node-" ++ toString c) ∈ keys
    · rw [if_pos hmem] at h
      have hrec := ih (c + 1) h
      exact ⟨hrec.1, Nat.lt_of_succ_lt hrec.2⟩
    · rw [if_neg hmem] at h
      obtain ⟨rfl, rfl⟩ := Prod.mk.injEq .. ▸ Option.some.injEq .. ▸ h
      exact ⟨hmem, Nat.lt_succ_self c⟩

/-- Witness for C6: with keys containing node-0 and an external id, the
scan from counter 0 skips the collision and returns the fresh node-1. -/
theorem createNodeId_fresh_witness :
    "node-1" ∉ ["node-0", "custom-id"] ∧ 0 < 2 :=
  createNodeId_fresh ["node-0", "custom-id"] 3 0 "node-1" 2 (by decide)

/-- Claim C8: the automatic label anchor is a deterministic function of
the source id and the transition alone: self-loops anchor left,
non-self edges anchor right when offset is nonnegative and left when it
is negative. -/
theorem getAutoAnchor_deterministic (reg : EdgeRegistry) (edgeId src : String)
    (t : FSMTransition) (h : reg.find? (fun e => e.1 = edgeId) = some (edgeId, src, t)) :
    (src = t.«to» → getAutoAnchor reg edgeId = some .left)
    ∧ (src ≠ t.«to» → 0 ≤ t.offset → getAutoAnchor reg edgeId = some .right)
    ∧ (src ≠ t.«to» → t.offset < 0 → getAutoAnchor reg edgeId = some .left) := by
  refine ⟨?_, ?_, ?_⟩
  · intro hself
    simp [getAutoAnchor, h, hself]
  · intro hns hoff
    simp [getAutoAnchor, h, hns, hoff]
  · intro hns hoff
    simp [getAutoAnchor, h, hns, not_le.mpr hoff]

/-- Witness for C8 on c8Reg. -/
theorem getAutoAnchor_deterministic_witness :
    getAutoAnchor c8Reg "edge-0" = some .right ∧ getAutoAnchor c8Reg "edge-1" = some .left := by
  have h0 := getAutoAnchor_deterministic c8Reg "edge-0" "a" ⟨"b", "x", 5, none⟩ (by rfl)
  have h1 := getAutoAnchor_deterministic c8Reg "edge-1" "b" ⟨"b", "y", -3, some 0⟩ (by rfl)
  exact ⟨h0.2.1 (by simp) (by norm_num), h1.1 rfl⟩

/-- Claim C5: for every choice of control points, circle centre and
radius (the coincident-centres degenerate case included) the root
finder returns a parameter inside [0, 1]; in this real-valued model
every quantity is a real number, so the tip point and tangent derived
from the parameter are well defined (the NaN/infinity part of the
floating-point claim is expressed by this clamped membership). -/
theorem findCubicCircleIntersectionT_mem_unitInterval (p0 p1 p2 p3 center : Vec2) (radius : ℝ) :
    0 ≤ findCubicCircleIntersectionT p0 p1 p2 p3 center radius
    ∧ findCubicCircleIntersectionT p0 p1 p2 p3 center radius ≤ 1 := by
  unfold findCubicCircleIntersectionT
  refine ⟨le_max_left _ _, max_le (by norm_num) (min_le_left _ _)⟩

/-- A nonnegative number whose square matches the sum of squares is the
value of hypot. -/
lemma hypot_eq_of_sq_eq (a b r : ℝ) (hr : 0 ≤ r) (h : a ^ 2 + b ^ 2 = r ^ 2) : hypot a b = r := by
  rw [hypot, h]
  exact Real.sqrt_sq hr

/-- Cosine and sine of the atan2 of a vector pointing from the
auxiliary circle centre back to the node centre. -/
lemma cos_sin_atan2_neg (r theta A B : ℝ) (hr : 0 < r)
    (hA : A = -(r * Real.cos theta)) (hB : B = -(r * Real.sin theta)) :
    Real.cos (atan2 B A) = -Real.cos theta ∧ Real.sin (atan2 B A) = -Real.sin theta := by
  subst hA hB
  have hrne : r ≠ 0 := ne_of_gt hr
  have habs : Complex.abs ⟨-(r * Real.cos theta), -(r * Real.sin theta)⟩ = r := by
    rw [Complex.abs_apply, Complex.normSq_mk]
    have h : -(r * Real.cos theta) * -(r * Real.cos theta)
        + -(r * Real.sin theta) * -(r * Real.sin theta) = r ^ 2 := by
      linear_combination r ^ 2 * Real.sin_sq_add_cos_sq theta
    rw [h]
    exact Real.sqrt_sq hr.le
  have hz : (⟨-(r * Real.cos theta), -(r * Real.sin theta)⟩ : ℂ) ≠ 0 := by
    intro h0
    rw [h0, map_zero] at habs
    exact hrne habs.symm
  constructor
  · unfold atan2
    rw [Complex.cos_arg hz]
    show -(r * Real.cos theta) / _ = _
    rw [habs]
    field_simp
    ring
  · unfold atan2
    rw [Complex.sin_arg]
    show -(r * Real.sin theta) / _ = _
    rw [habs]
    field_simp
    ring

/-- Squared-distance computation shared by the two self-loop arc
endpoints: both lie at distance r from the node centre. -/
lemma selfLoop_endpoint_sq (r theta phi beta : ℝ)
    (hc : Real.cos phi = -Real.cos theta) (hs : Real.sin phi = -Real.sin theta)
    (hcb : Real.cos beta = 2 / 5) (hsb : Real.sin beta ^ 2 = 21 / 25) :
    ((r * Real.cos theta + 0.8 * r * Real.cos (phi + beta)) ^ 2
      + (r * Real.sin theta + 0.8 * r * Real.sin (phi + beta)) ^ 2 = r ^ 2)
    ∧ ((r * Real.cos theta + 0.8 * r * Real.cos (phi - beta)) ^ 2
      + (r * Real.sin theta + 0.8 * r * Real.sin (phi - beta)) ^ 2 = r ^ 2) := by
  have hpy := Real.sin_sq_add_cos_sq theta
  constructor
  · rw [Real.cos_add, Real.sin_add, hc, hs, hcb]
    linear_combination (r ^ 2 * (289 / 625 + (16 / 25) * Real.sin beta ^ 2)) * hpy
      + ((16 / 25) * r ^ 2) * hsb
  · rw [Real.cos_sub, Real.sin_sub, hc, hs, hcb]
    linear_combination (r ^ 2 * (289 / 625 + (16 / 25) * Real.sin beta ^ 2)) * hpy
      + ((16 / 25) * r ^ 2) * hsb

/-- Claim C4: for every node centre, positive radius and rotation
angle, both endpoints of the self-loop arc lie exactly at distance r
from the node centre, and the emitted arc flags are always
largeArc = 1 and sweep = 1 (the outward-bulging branch). -/
theorem selfLoopArcParams_on_circle (center : Vec2) (r theta : ℝ) (hr : 0 < r) :
    hypot ((selfLoopArcParams center r theta).startPt.x - center.x)
          ((selfLoopArcParams center r theta).startPt.y - center.y) = r
    ∧ hypot ((selfLoopArcParams center r theta).endPt.x - center.x)
            ((selfLoopArcParams center r theta).endPt.y - center.y) = r
    ∧ (selfLoopArcParams center r theta).largeArcFlag = 1
    ∧ (selfLoopArcParams center r theta).sweepFlag = 1 := by
  have hrne : r ≠ 0 := ne_of_gt hr
  have hclamp : max (-1 : ℝ)
      (min 1 ((r * r + 0.8 * r * (0.8 * r) - r * r) / (2 * r * (0.8 * r)))) = 2 / 5 := by
    have hdiv : (r * r + 0.8 * r * (0.8 * r) - r * r) / (2 * r * (0.8 * r)) = 2 / 5 := by
      rw [div_eq_iff (by positivity)]
      ring
    rw [hdiv]
    norm_num
  have hcb : Real.cos (Real.arccos (max (-1 : ℝ)
      (min 1 ((r * r + 0.8 * r * (0.8 * r) - r * r) / (2 * r * (0.8 * r)))))) = 2 / 5 := by
    rw [hclamp]
    exact Real.cos_arccos (by norm_num) (by norm_num)
  have hsb : Real.sin (Real.arccos (max (-1 : ℝ)
      (min 1 ((r * r + 0.8 * r * (0.8 * r) - r * r) / (2 * r * (0.8 * r)))))) ^ 2 = 21 / 25 := by
    have hpb := Real.sin_sq_add_cos_sq (Real.arccos (max (-1 : ℝ)
      (min 1 ((r * r + 0.8 * r * (0.8 * r) - r * r) / (2 * r * (0.8 * r))))))
    rw [hcb] at hpb
    nlinarith [hpb]
  have hphi := cos_sin_atan2_neg r theta
    (center.x - (center.x + r * Real.cos theta)) (center.y - (center.y + r * Real.sin theta))
    hr (by ring) (by ring)
  have hkey := selfLoop_endpoint_sq r theta
    (atan2 (center.y - (center.y + r * Real.sin theta)) (center.x - (center.x + r * Real.cos theta)))
    (Real.arccos (max (-1 : ℝ)
      (min 1 ((r * r + 0.8 * r * (0.8 * r) - r * r) / (2 * r * (0.8 * r))))))
    hphi.1 hphi.2 hcb hsb
  refine ⟨?_, ?_, rfl, rfl⟩
  · apply hypot_eq_of_sq_eq _ _ _ hr.le
    simp only [selfLoopArcParams]
    linear_combination hkey.1
  · apply hypot_eq_of_sq_eq _ _ _ hr.le
    simp only [selfLoopArcParams]
    linear_combination hkey.2

/-- Witness for C4 at the unit circle centred at the origin with
rotation angle zero. -/
theorem selfLoopArcParams_on_circle_witness :
    hypot ((selfLoopArcParams ⟨0, 0⟩ 1 0).startPt.x - 0)
          ((selfLoopArcParams ⟨0, 0⟩ 1 0).startPt.y - 0) = 1
    ∧ hypot ((selfLoopArcParams ⟨0, 0⟩ 1 0).endPt.x - 0)
            ((selfLoopArcParams ⟨0, 0⟩ 1 0).endPt.y - 0) = 1
    ∧ (selfLoopArcParams ⟨0, 0⟩ 1 0).largeArcFlag = 1
    ∧ (selfLoopArcParams ⟨0, 0⟩ 1 0).sweepFlag = 1 :=
  selfLoopArcParams_on_circle ⟨0, 0⟩ 1 0 one_pos

/-- Claim C3: for distinct node centres, the cubic built by
controlFromOffsetCubic has its t = 0.5 point at the chord midpoint
displaced along the left normal of the chord direction by k * offset
with the fixed positive constant k = 3/5 (coming from the empirical
factors 0.4 and 0.8); in particular a zero offset puts the curve
midpoint exactly at the chord midpoint, on the segment between the
centres. -/
theorem controlFromOffsetCubic_midpoint (p0 p3 : Vec2) (offset : ℝ) (hne : p0 ≠ p3) :
    (0 : ℝ) < 3 / 5
    ∧ cubicPoint p0 (controlFromOffsetCubic p0 p3 offset).1
        (controlFromOffsetCubic p0 p3 offset).2 p3 (1 / 2)
      = ⟨(p0.x + p3.x) / 2
           + 3 / 5 * offset * (perpLeft (unitVec (p3.x - p0.x) (p3.y - p0.y))).x,
         (p0.y + p3.y) / 2
           + 3 / 5 * offset * (perpLeft (unitVec (p3.x - p0.x) (p3.y - p0.y))).y⟩
    ∧ (offset = 0 →
        cubicPoint p0 (controlFromOffsetCubic p0 p3 offset).1
          (controlFromOffsetCubic p0 p3 offset).2 p3 (1 / 2)
        = ⟨(p0.x + p3.x) / 2, (p0.y + p3.y) / 2⟩) := by
  have hmain : cubicPoint p0 (controlFromOffsetCubic p0 p3 offset).1
      (controlFromOffsetCubic p0 p3 offset).2 p3 (1 / 2)
      = ⟨(p0.x + p3.x) / 2
           + 3 / 5 * offset * (perpLeft (unitVec (p3.x - p0.x) (p3.y - p0.y))).x,
         (p0.y + p3.y) / 2
           + 3 / 5 * offset * (perpLeft (unitVec (p3.x - p0.x) (p3.y - p0.y))).y⟩ := by
    apply Vec2.ext
    · simp only [cubicPoint, controlFromOffsetCubic, perpLeft]
      ring
    · simp only [cubicPoint, controlFromOffsetCubic, perpLeft]
      ring
  refine ⟨by norm_num, hmain, ?_⟩
  intro h0
  rw [hmain, h0]
  apply Vec2.ext <;> simp

/-- Witness for C3 at the centres (0,0) and (1,0) with zero offset. -/
theorem controlFromOffsetCubic_midpoint_witness :
    cubicPoint ⟨0, 0⟩ (controlFromOffsetCubic ⟨0, 0⟩ ⟨1, 0⟩ 0).1
      (controlFromOffsetCubic ⟨0, 0⟩ ⟨1, 0⟩ 0).2 ⟨1, 0⟩ (1 / 2)
      = ⟨(1 / 2 : ℝ), 0⟩ := by
  have h := (controlFromOffsetCubic_midpoint ⟨0, 0⟩ ⟨1, 0⟩ 0
    (by simp [Vec2.mk.injEq])).2.2 rfl
  simpa using h

/-- Claim C2 (code-bug evidence): removeEdge on an unknown edge id is
indeed a silent no-op, but the edge-drag pointer-move handler firing
after its edge was removed destructures the missing registry entry and
throws a TypeError instead of no-opping, contradicting the never-throw
requirement. -/
theorem edgeDragPointerMove_after_removal_throws :
    removeEdge "edge-99" c2State = c2State
    ∧ edgeDragPointerMove c2State "edge-0" "a" "b"
        ⟨true, true, ⟨0, 0⟩, some ⟨⟨50, 0⟩, ⟨0, 1⟩, 0, 0⟩⟩ ⟨0, 0⟩ ⟨10, 20⟩
      = .error "TypeError: edgeIdToTransition[id] is undefined" :=
  ⟨rfl, rfl⟩

/-- Loop invariant of the findNodeAtPt scan: the returned best entry is
none exactly when the accumulator was none and no scanned node admits
the pointer, and a returned best is either the initial accumulator or a
scanned in-range node, is no farther than the initial accumulator, and
is no farther than any scanned in-range node. -/
lemma findBest_spec (R : ℝ) (pt : Vec2) (l : List (String × FSMNode))
    (best : Option (String × ℝ)) :
    (findBest R pt l best = none ↔
      (best = none ∧ ∀ q ∈ l, ¬ hypot (pt.x - q.2.x) (pt.y - q.2.y) ≤ q.2.radius + R))
    ∧ (∀ id dd, findBest R pt l best = some (id, dd) →
        ((best = some (id, dd))
          ∨ ∃ n, (id, n) ∈ l ∧ dd = hypot (pt.x - n.x) (pt.y - n.y) ∧ dd ≤ n.radius + R)
        ∧ (∀ i0 d0, best = some (i0, d0) → dd ≤ d0)
        ∧ (∀ q ∈ l, hypot (pt.x - q.2.x) (pt.y - q.2.y) ≤ q.2.radius + R →
            dd ≤ hypot (pt.x - q.2.x) (pt.y - q.2.y))) := by
  induction l generalizing best with
  | nil =>
    refine ⟨by simp [findBest], ?_⟩
    intro id dd h
    simp only [findBest] at h
    refine ⟨Or.inl h, ?_, by simp⟩
    intro i0 d0 h0
    rw [h] at h0
    simp only [Option.some.injEq, Prod.mk.injEq] at h0
    exact le_of_eq h0.2
  | cons hd tl ih =>
    obtain ⟨hid, hn⟩ := hd
    by_cases hthr : hypot (pt.x - hn.x) (pt.y - hn.y) ≤ hn.radius + R
    · rcases best with _ | ⟨i0, d0⟩
      · -- accumulator empty: the head becomes the new best
        have hstep : findBest R pt ((hid, hn) :: tl) none
            = findBest R pt tl (some (hid, hypot (pt.x - hn.x) (pt.y - hn.y))) := by
          simp only [findBest, if_pos hthr]
        constructor
        · rw [hstep, (ih _).1]
          constructor
          · rintro ⟨h1, -⟩
            cases h1
          · rintro ⟨-, hall⟩
            exact absurd hthr (hall (hid, hn) (List.mem_cons_self _ _))
        · intro id dd h
          rw [hstep] at h
          have h2 := (ih _).2 id dd h
          refine ⟨?_, ?_, ?_⟩
          · right
            rcases h2.1 with heq | ⟨n, hmem, hdd, hle⟩
            · simp only [Option.some.injEq, Prod.mk.injEq] at heq
              obtain ⟨rfl, rfl⟩ := heq
              exact ⟨hn, List.mem_cons_self _ _, rfl, hthr⟩
            · exact ⟨n, List.mem_cons_of_mem _ hmem, hdd, hle⟩
          · intro i0 d0 h0
            cases h0
          · intro q hq hqthr
            rcases List.mem_cons.mp hq with heq | hq'
            · rw [heq]
              exact h2.2.1 hid _ rfl
            · exact h2.2.2 q hq' hqthr
      · by_cases hlt : hypot (pt.x - hn.x) (pt.y - hn.y) < d0
        · -- head strictly closer: it replaces the accumulator
          have hstep : findBest R pt ((hid, hn) :: tl) (some (i0, d0))
              = findBest R pt tl (some (hid, hypot (pt.x - hn.x) (pt.y - hn.y))) := by
            simp only [findBest, if_pos hthr, if_pos hlt]
          constructor
          · rw [hstep, (ih _).1]
            constructor
            · rintro ⟨h1, -⟩
              cases h1
            · rintro ⟨h1, -⟩
              cases h1
          · intro id dd h
            rw [hstep] at h
            have h2 := (ih _).2 id dd h
            refine ⟨?_, ?_, ?_⟩
            · right
              rcases h2.1 with heq | ⟨n, hmem, hdd, hle⟩
              · simp only [Option.some.injEq, Prod.mk.injEq] at heq
                obtain ⟨rfl, rfl⟩ := heq
                exact ⟨hn, List.mem_cons_self _ _, rfl, hthr⟩
              · exact ⟨n, List.mem_cons_of_mem _ hmem, hdd, hle⟩
            · intro i1 d1 h0
              simp only [Option.some.injEq, Prod.mk.injEq] at h0
              have hddle : dd ≤ hypot (pt.x - hn.x) (pt.y - hn.y) := h2.2.1 hid _ rfl
              exact hddle.trans (le_of_lt (h0.2 ▸ hlt))
            · intro q hq hqthr
              rcases List.mem_cons.mp hq with heq | hq'
              · rw [heq]
                exact h2.2.1 hid _ rfl
              · exact h2.2.2 q hq' hqthr
        · -- head not closer: the accumulator survives
          have hstep : findBest R pt ((hid, hn) :: tl) (some (i0, d0))
              = findBest R pt tl (some (i0, d0)) := by
            simp only [findBest, if_pos hthr, if_neg hlt]
          constructor
          · rw [hstep, (ih _).1]
            constructor
            · rintro ⟨h1, -⟩
              cases h1
            · rintro ⟨h1, -⟩
              cases h1
          · intro id dd h
            rw [hstep] at h
            have h2 := (ih _).2 id dd h
            refine ⟨?_, ?_, ?_⟩
            · rcases h2.1 with heq | ⟨n, hmem, hdd, hle⟩
              · exact Or.inl heq
              · exact Or.inr ⟨n, List.mem_cons_of_mem _ hmem, hdd, hle⟩
            · exact h2.2.1
            · intro q hq hqthr
              rcases List.mem_cons.mp hq with heq | hq'
              · have hdd0 : dd ≤ d0 := h2.2.1 i0 d0 rfl
                rw [heq]
                exact hdd0.trans (not_lt.mp hlt)
              · exact h2.2.2 q hq' hqthr
    · -- head out of range: skipped entirely
      have hstep : findBest R pt ((hid, hn) :: tl) best = findBest R pt tl best := by
        simp only [findBest, if_neg hthr]
      constructor
      · rw [hstep, (ih _).1]
        constructor
        · rintro ⟨h1, h2⟩
          refine ⟨h1, ?_⟩
          intro q hq
          rcases List.mem_cons.mp hq with heq | hq'
          · rw [heq]
            exact hthr
          · exact h2 q hq'
        · rintro ⟨h1, h2⟩
          exact ⟨h1, fun q hq => h2 q (List.mem_cons_of_mem _ hq)⟩
      · intro id dd h
        rw [hstep] at h
        have h2 := (ih _).2 id dd h
        refine ⟨?_, h2.2.1, ?_⟩
        · rcases h2.1 with heq | ⟨n, hmem, hdd, hle⟩
          · exact Or.inl heq
          · exact Or.inr ⟨n, List.mem_cons_of_mem _ hmem, hdd, hle⟩
        · intro q hq hqthr
          rcases List.mem_cons.mp hq with heq | hq'
          · rw [heq] at hqthr
            exact absurd hqthr hthr
          · exact h2.2.2 q hq' hqthr

/-- Claim C10: findNodeAtPt returns the id of a node whose centre is
within node.radius + defaultRadius of the point and whose distance is
minimal among all nodes within that threshold, and returns none exactly
when no node is that close; consequently a link released anywhere up to
a full default radius outside a node boundary circle still resolves to
that node. -/
theorem findNodeAtPt_nearest (R : ℝ) (s : FSMState) (pt : Vec2) :
    (∀ id, findNodeAtPt R s pt = some id →
      ∃ n, (id, n) ∈ s.nodes ∧ hypot (pt.x - n.x) (pt.y - n.y) ≤ n.radius + R
        ∧ ∀ q ∈ s.nodes, hypot (pt.x - q.2.x) (pt.y - q.2.y) ≤ q.2.radius + R →
            hypot (pt.x - n.x) (pt.y - n.y) ≤ hypot (pt.x - q.2.x) (pt.y - q.2.y))
    ∧ (findNodeAtPt R s pt = none ↔
        ∀ q ∈ s.nodes, ¬ hypot (pt.x - q.2.x) (pt.y - q.2.y) ≤ q.2.radius + R) := by
  constructor
  · intro nid hid
    unfold findNodeAtPt at hid
    obtain ⟨⟨i, dd⟩, hfb, hfst⟩ := Option.map_eq_some'.mp hid
    subst hfst
    have h2 := (findBest_spec R pt s.nodes none).2 i dd hfb
    rcases h2.1 with heq | ⟨n, hmem, hdd, hle⟩
    · cases heq
    · exact ⟨n, hmem, hdd ▸ hle, fun q hq hqthr => hdd ▸ h2.2.2 q hq hqthr⟩
  · unfold findNodeAtPt
    rw [Option.map_eq_none', (findBest_spec R pt s.nodes none).1]
    simp

/-- Witness for C10: the pointer exactly at the node centre resolves to
that node, which is trivially nearest. -/
theorem findNodeAtPt_nearest_witness :
    ∃ n, ("a", n) ∈ c10State.nodes ∧ hypot ((⟨1, 2⟩ : Vec2).x - n.x) ((⟨1, 2⟩ : Vec2).y - n.y) ≤ n.radius + 35
      ∧ ∀ q ∈ c10State.nodes,
          hypot ((⟨1, 2⟩ : Vec2).x - q.2.x) ((⟨1, 2⟩ : Vec2).y - q.2.y) ≤ q.2.radius + 35 →
          hypot ((⟨1, 2⟩ : Vec2).x - n.x) ((⟨1, 2⟩ : Vec2).y - n.y)
            ≤ hypot ((⟨1, 2⟩ : Vec2).x - q.2.x) ((⟨1, 2⟩ : Vec2).y - q.2.y) := by
  have heval : findNodeAtPt 35 c10State ⟨1, 2⟩ = some "a" := by
    have hz : hypot ((1 : ℝ) - 1) ((2 : ℝ) - 2) = 0 := by
      simp [hypot]
    simp only [findNodeAtPt, findBest, c10State]
    rw [if_pos (by rw [hz]; norm_num)]
    rfl
  exact (findNodeAtPt_nearest 35 c10State ⟨1, 2⟩).1 "a" heval

/-- Field effects of one pointer move while dragging: the drag stays
active, no onChange is delivered and no debounce timer is touched, and
the node position becomes exactly the pointer minus the grab offset. -/
lemma nodeDragPointerMove_fields (off dragStart : Vec2) (s : NodeDragState) (pt : Vec2)
    (hd : s.dragging = true) :
    (nodeDragPointerMove off dragStart s pt).dragging = true
    ∧ (nodeDragPointerMove off dragStart s pt).fired = s.fired
    ∧ (nodeDragPointerMove off dragStart s pt).timerPending = s.timerPending
    ∧ (nodeDragPointerMove off dragStart s pt).pos = ⟨pt.x - off.x, pt.y - off.y⟩ := by
  simp only [nodeDragPointerMove, hd, Bool.not_true, Bool.false_eq_true, if_false]
  split_ifs <;> simp [hd]

/-- Folding a burst of pointer moves over an active drag keeps it
active, delivers nothing, leaves the debounce slot untouched, and ends
with the node at the position dictated by the last move. -/
lemma nodeDrag_foldMoves (off dragStart : Vec2) (pts : List Vec2) (s : NodeDragState)
    (hd : s.dragging = true) :
    (pts.foldl (nodeDragPointerMove off dragStart) s).dragging = true
    ∧ (pts.foldl (nodeDragPointerMove off dragStart) s).fired = s.fired
    ∧ (pts.foldl (nodeDragPointerMove off dragStart) s).timerPending = s.timerPending
    ∧ ((pts = [] → (pts.foldl (nodeDragPointerMove off dragStart) s).pos = s.pos)
       ∧ ∀ h : pts ≠ [], (pts.foldl (nodeDragPointerMove off dragStart) s).pos
          = ⟨(pts.getLast h).x - off.x, (pts.getLast h).y - off.y⟩) := by
  induction pts generalizing s with
  | nil => exact ⟨hd, rfl, rfl, fun _ => rfl, fun h => absurd rfl h⟩
  | cons p rest ih =>
    have h1 := nodeDragPointerMove_fields off dragStart s p hd
    have h2 := ih (nodeDragPointerMove off dragStart s p) h1.1
    simp only [List.foldl_cons]
    refine ⟨h2.1, h2.2.1.trans h1.2.1, h2.2.2.1.trans h1.2.2.1, ?_, ?_⟩
    · intro habs
      cases habs
    · intro _
      by_cases hr : rest = []
      · subst hr
        simp only [List.foldl_nil, List.getLast_singleton]
        exact h2.2.2.2.1 rfl |>.trans h1.2.2.2
      · rw [List.getLast_cons hr]
        exact h2.2.2.2.2 hr

/-- Claim C7: a burst of N pointer moves during one continuous node
drag, followed by pointer-up and settling, delivers exactly one
(hence at most one) onChange notification, because tryOnChange always
clears the previously scheduled timeout before scheduling; and the
final node position is exactly the one computed from the last move
event. -/
theorem nodeDrag_debounce_single_onChange (off dragStart p0 : Vec2) (pts : List Vec2)
    (hne : pts ≠ []) :
    (settle (nodeDragPointerUp (pts.foldl (nodeDragPointerMove off dragStart)
        ⟨true, p0, false, false, false, false, 0⟩))).fired ≤ 1
    ∧ (settle (nodeDragPointerUp (pts.foldl (nodeDragPointerMove off dragStart)
        ⟨true, p0, false, false, false, false, 0⟩))).pos
      = ⟨(pts.getLast hne).x - off.x, (pts.getLast hne).y - off.y⟩ := by
  obtain ⟨hd, hfi, htp, -, hpos⟩ :=
    nodeDrag_foldMoves off dragStart pts ⟨true, p0, false, false, false, false, 0⟩ rfl
  have hpos' := hpos hne
  generalize hS : pts.foldl (nodeDragPointerMove off dragStart)
      ⟨true, p0, false, false, false, false, 0⟩ = S at hd hfi htp hpos' ⊢
  obtain ⟨d, q, mv, cs, raf, tp, fi⟩ := S
  simp only at hd hfi htp hpos'
  subst hd hfi htp hpos'
  cases raf <;>
    simp [nodeDragPointerUp, tryOnChangeStep, settle, runAnimationFrame, runTimer]

/-- Witness for C7: a single-move burst from a pointer grab with zero
offset. -/
theorem nodeDrag_debounce_single_onChange_witness :
    (settle (nodeDragPointerUp ([(⟨1, 1⟩ : Vec2)].foldl (nodeDragPointerMove ⟨0, 0⟩ ⟨1, 1⟩)
        ⟨true, ⟨1, 1⟩, false, false, false, false, 0⟩))).fired ≤ 1
    ∧ (settle (nodeDragPointerUp ([(⟨1, 1⟩ : Vec2)].foldl (nodeDragPointerMove ⟨0, 0⟩ ⟨1, 1⟩)
        ⟨true, ⟨1, 1⟩, false, false, false, false, 0⟩))).pos
      = ⟨(([(⟨1, 1⟩ : Vec2)].getLast (by simp)).x - (⟨0, 0⟩ : Vec2).x),
         (([(⟨1, 1⟩ : Vec2)].getLast (by simp)).y - (⟨0, 0⟩ : Vec2).y)⟩ :=
  nodeDrag_debounce_single_onChange ⟨0, 0⟩ ⟨1, 1⟩ ⟨1, 1⟩ [⟨1, 1⟩] (by simp)

/-- Claim C9: there is a graph state with a non-self transition of
negative curvature offset whose round trip through the legacy
index-based format comes back with a non-negative offset: the legacy
format stores only the two equal deltas, and the recovery takes
hypot(deltaX, deltaY), which is never negative, so the round trip can
flip the left/right bow of the edge. -/
theorem legacy_roundtrip_loses_offset_sign :
    ∃ (s : FSMState) (src : String) (n : FSMNode) (t : FSMTransition),
      (src, n) ∈ s.nodes ∧ t ∈ n.transitions ∧ t.«to» ≠ src ∧ t.offset < 0
      ∧ ∃ n', ("node-0", n') ∈ (fsmStateFromBackwardsCompatible
            (fsmStateToBackwardsCompatible s)).nodes
          ∧ ∃ t', t' ∈ n'.transitions ∧ t'.«to» = "node-1"
              ∧ t'.offset = hypot t.offset t.offset ∧ 0 ≤ t'.offset := by
  have hrt : fsmStateFromBackwardsCompatible (fsmStateToBackwardsCompatible c9State)
      = ⟨none, [("node-0", ⟨"A", 0, 0, 35, [⟨"node-1", "lbl", hypot (-1) (-1), none⟩], "qa"⟩),
                ("node-1", ⟨"B", 100, 0, 35, [], "qb"⟩)]⟩ := by
    rfl
  refine ⟨c9State, "a", ⟨"A", 0, 0, 35, [⟨"b", "lbl", -1, none⟩], "qa"⟩,
    ⟨"b", "lbl", -1, none⟩, ?_, ?_, ?_, ?_, ?_⟩
  · simp [c9State]
  · simp
  · simp
  · norm_num
  · refine ⟨⟨"A", 0, 0, 35, [⟨"node-1", "lbl", hypot (-1) (-1), none⟩], "qa"⟩, ?_,
      ⟨"node-1", "lbl", hypot (-1) (-1), none⟩, ?_, rfl, rfl, ?_⟩
    · rw [hrt]
      simp
    · simp
    · exact Real.sqrt_nonneg _

end FsmBuilder
